import Mathlib

/-!
Verification of the Flashcards app core: the SM-2-variant scheduler of
src/scheduler.js and the store layer (Dexie CRUD, due-card query and
import/export) of src/app.js.

Modelling conventions of the shallow embedding:
* JavaScript numbers are modelled as exact rationals (`ℚ`); `Math.round x`
  is `⌊x + 1/2⌋`, which is what JavaScript computes on reals.
* JavaScript strings are modelled as `List Char`.
* A possibly absent (`undefined` / `null`) value is an `Option`; the
  JavaScript truthiness test `x || d` on numbers is `jsOr`, which also
  replaces `0` by the default.
* Timestamps are rationals measured in days, so the calendar-day addition
  `due.setDate(due.getDate() + interval)` becomes `now + interval`.
  No claim depends on the absolute value of a timestamp, only on
  assignments and order comparisons, which this models faithfully.
-/

namespace Flashcards

/-- The double-quote character, written via its code point. -/
def dq : Char := Char.ofNat 34

/-! ## Scheduler (src/scheduler.js, function `schedule`) -/

/-- JavaScript `Math.round`: floor of `q + 1/2` (round half toward +∞). -/
def jsRound (q : ℚ) : ℚ := ((⌊q + 1/2⌋ : ℤ) : ℚ)

/-- Card states: the string field `state` takes values
`'new' | 'review' | 'suspended'`. -/
inductive CState where
  | new
  | review
  | suspended
deriving DecidableEq, Repr

/-- Review grades: `'again' | 'hard' | 'good' | 'easy'`. -/
inductive Grade where
  | again
  | hard
  | good
  | easy
deriving DecidableEq, Repr

/-- The scheduling fields of a card as `schedule` reads them.  Each numeric
field is an `Option` because the input object may lack it (`undefined`),
hold `null`, or hold a number. -/
structure SchedCard where
  interval : Option ℚ
  ease : Option ℚ
  reps : Option ℚ
  lapses : Option ℚ
  due : Option ℚ
  state : CState
deriving DecidableEq, Repr

/-- JavaScript `x || d` for a numeric `x`: the default is used when `x` is
absent, `null`, or `0` (all falsy). -/
def jsOr (o : Option ℚ) (d : ℚ) : ℚ :=
  match o with
  | none => d
  | some v => if v = 0 then d else v

/-- `schedule(card, grade, nowDate)` of src/scheduler.js.

```js
let interval = c.interval || 0;
let ease = c.ease || 2.5;
let reps = c.reps || 0;
let lapses = c.lapses || 0;
switch (grade) {
  case 'again':
    lapses += 1; reps = 0;
    ease = Math.max(1.3, ease - 0.2); interval = 1; break;
  case 'hard':
    ease = Math.max(1.3, ease - 0.15);
    interval = Math.max(1, Math.round(Math.max(1, interval) * 1.2));
    reps += 1; break;
  case 'good':
    if (reps === 0) interval = 1;
    else if (reps === 1) interval = 6;
    else interval = Math.max(1, Math.round(interval * ease));
    reps += 1; break;
  case 'easy':
    ease = Math.min(3.5, ease + 0.15);
    if (reps === 0) interval = 4;
    else interval = Math.max(1, Math.round(interval * (ease + 0.2)));
    reps += 1; break;
}
const due = new Date(nowDate); due.setDate(due.getDate() + interval);
return { ...c, ease, interval, reps, lapses, due, state: 'review' };
```

Note the `easy` branch reassigns `ease` before the `interval` line, so that
line reads the updated ease (`ease2` below).  The tuple is
`(interval, ease, reps, lapses)` after the switch. -/
def schedule (card : SchedCard) (grade : Grade) (now : ℚ) : SchedCard :=
  let interval := jsOr card.interval 0
  let ease := jsOr card.ease 2.5
  let reps := jsOr card.reps 0
  let lapses := jsOr card.lapses 0
  let r : ℚ × ℚ × ℚ × ℚ :=
    match grade with
    | .again =>
        (1, max 1.3 (ease - 0.2), 0, lapses + 1)
    | .hard =>
        (max 1 (jsRound (max 1 interval * 1.2)), max 1.3 (ease - 0.15),
          reps + 1, lapses)
    | .good =>
        (if reps = 0 then 1
          else if reps = 1 then 6
          else max 1 (jsRound (interval * ease)), ease, reps + 1, lapses)
    | .easy =>
        let ease2 := min 3.5 (ease + 0.15)
        (if reps = 0 then 4
          else max 1 (jsRound (interval * (ease2 + 0.2))), ease2,
          reps + 1, lapses)
  { interval := some r.1, ease := some r.2.1, reps := some r.2.2.1,
    lapses := some r.2.2.2, due := some (now + r.1), state := .review }

/-- The base card of the scheduler's own console tests:
`{ ease: 2.5, interval: 0, reps: 0, lapses: 0, due: now, state: 'new' }`. -/
def baseCard : SchedCard :=
  { interval := some 0, ease := some 2.5, reps := some 0, lapses := some 0,
    due := some 0, state := .new }

/-- Iterating the scheduler on grade `easy`. -/
def easyIter (c : SchedCard) (now : ℚ) : ℕ → SchedCard
  | 0 => c
  | k + 1 => schedule (easyIter c now k) .easy now

/-! ## Claims about the scheduler -/

/-- Concrete card refuting claim C1: `interval = 100`, `ease = 2.5`,
`reps = 1`. -/
def c1card : SchedCard :=
  { interval := some 100, ease := some 2.5, reps := some 1, lapses := some 0,
    due := some 0, state := .new }

/-- The card `schedule` actually operates on: falsy scheduling fields
replaced by their defaults. -/
def normCard (c : SchedCard) : SchedCard :=
  { interval := some (jsOr c.interval 0), ease := some (jsOr c.ease 2.5),
    reps := some (jsOr c.reps 0), lapses := some (jsOr c.lapses 0),
    due := c.due, state := c.state }

/-! ## Store data model (the Dexie db layer of src/app.js)

Tables `decks: '++id, ...'`, `notes: '++id, deckId, ...'`,
`cards: '++id, deckId, noteId, ...'`.  Each table is a list in insertion
order (Dexie's auto-increment primary-key order); the `next…Id` counters
model the `++id` generators, which start at 1.  A `deckId`/`noteId`
reference is an `Option ℕ` because JavaScript can store `undefined` there
(e.g. a failed `Map.get` during import). -/

structure Deck where
  id : ℕ
  name : List Char
  createdAt : ℚ
deriving DecidableEq, Repr

structure Note where
  id : ℕ
  deckId : Option ℕ
  front : List Char
  back : List Char
  createdAt : ℚ
  updatedAt : ℚ
deriving DecidableEq, Repr

structure Card where
  id : ℕ
  deckId : Option ℕ
  noteId : Option ℕ
  due : ℚ
  interval : ℚ
  ease : ℚ
  reps : ℚ
  lapses : ℚ
  state : CState
deriving DecidableEq, Repr

structure Store where
  decks : List Deck
  notes : List Note
  cards : List Card
  nextDeckId : ℕ
  nextNoteId : ℕ
  nextCardId : ℕ
deriving DecidableEq, Repr

def emptyStore : Store := ⟨[], [], [], 1, 1, 1⟩

/-- The error kinds of §7 of the spec that the store code can throw:
`ValidationError` (`'Invalid JSON format'`) and `FormatError`
(`'CSV header must be: deckName,front,back'`). -/
inductive StoreError where
  | validation
  | format
deriving DecidableEq, Repr

/-- `createDeck(name)`: add `{ name, createdAt: now() }`, return the new id. -/
def createDeck (s : Store) (name : List Char) (t : ℚ) : Store × ℕ :=
  ({ s with
      decks := s.decks ++ [⟨s.nextDeckId, name, t⟩],
      nextDeckId := s.nextDeckId + 1 }, s.nextDeckId)

/-- `renameDeck(id, name)`: `db.decks.update(id, { name })`. -/
def renameDeck (s : Store) (id : ℕ) (name : List Char) : Store :=
  { s with decks := s.decks.map (fun d => if d.id = id then { d with name := name } else d) }

/-- `deleteDeck(id)`: in one transaction delete the cards with `deckId = id`,
the notes with `deckId = id`, then the deck itself. -/
def deleteDeck (s : Store) (id : ℕ) : Store :=
  { s with
      cards := s.cards.filter (fun c => !(c.deckId == some id)),
      notes := s.notes.filter (fun n => !(n.deckId == some id)),
      decks := s.decks.filter (fun d => !(d.id == id)) }

/-- `createNote(deckId, fields)`: add the note, then its single
auto-generated card `{ deckId, noteId, due: createdAt, interval: 0,
ease: 2.5, reps: 0, lapses: 0, state: 'new' }`; return `{noteId, cardId}`.
The source performs no existence check on `deckId`. -/
def createNote (s : Store) (deckId : ℕ) (front back : List Char) (t : ℚ) :
    Store × ℕ × ℕ :=
  ({ s with
      notes := s.notes ++ [⟨s.nextNoteId, some deckId, front, back, t, t⟩],
      cards := s.cards ++
        [⟨s.nextCardId, some deckId, some s.nextNoteId, t, 0, 2.5, 0, 0, .new⟩],
      nextNoteId := s.nextNoteId + 1,
      nextCardId := s.nextCardId + 1 },
    s.nextNoteId, s.nextCardId)

/-- `updateNote(noteId, fields)`: replace `fields`, bump `updatedAt`. -/
def updateNote (s : Store) (noteId : ℕ) (front back : List Char) (t : ℚ) : Store :=
  { s with notes := s.notes.map (fun n =>
      if n.id = noteId then { n with front := front, back := back, updatedAt := t }
      else n) }

/-- `deleteNote(noteId)`: in one transaction delete the cards with
`noteId = noteId`, then the note. -/
def deleteNote (s : Store) (noteId : ℕ) : Store :=
  { s with
      cards := s.cards.filter (fun c => !(c.noteId == some noteId)),
      notes := s.notes.filter (fun n => !(n.id == noteId)) }

/-- `getNotesByDeck(deckId)`: the deck's notes, `.reverse()`d, i.e.
most-recently-created first. -/
def getNotesByDeck (s : Store) (deckId : ℕ) : List Note :=
  (s.notes.filter (fun n => n.deckId == some deckId)).reverse

/-- `getDueCards(deckId, limit)`:
`where('deckId').equals(deckId).and(c => due ≤ now && state !== 'suspended').limit(limit)`. -/
def getDueCards (s : Store) (deckId : ℕ) (limit : ℕ) (now : ℚ) : List Card :=
  (s.cards.filter (fun c =>
    c.deckId == some deckId && decide (c.due ≤ now)
      && !(c.state == CState.suspended))).take limit

/-- The patch the Study view passes to `updateCard`: the six scheduling
fields of a `schedule` result. -/
structure CardPatch where
  ease : ℚ
  interval : ℚ
  reps : ℚ
  lapses : ℚ
  due : ℚ
  state : CState
deriving DecidableEq, Repr

/-- `updateCard(cardId, patch)`: merge the patch onto the card with that
primary key. -/
def updateCard (s : Store) (cardId : ℕ) (p : CardPatch) : Store :=
  { s with cards := s.cards.map (fun c =>
      if c.id = cardId then
        { c with
            ease := p.ease, interval := p.interval, reps := p.reps,
            lapses := p.lapses, due := p.due, state := p.state }
      else c) }

/-- A deck with the given id exists in the store. -/
def deckExists (s : Store) (id : ℕ) : Prop := ∃ d ∈ s.decks, d.id = id

instance (s : Store) (id : ℕ) : Decidable (deckExists s id) := by
  unfold deckExists; infer_instance

def c6card : Card := ⟨1, some 1, some 1, 0, 0, 2, 0, 0, .new⟩

def c6store : Store :=
  ⟨[⟨1, [], 0⟩], [⟨1, some 1, [], [], 0, 0⟩], [c6card], 2, 2, 2⟩

/-! ## JSON import (`importJSON` of src/app.js)

A snapshot is the parsed JSON object.  Each top-level key may be absent
(`Option`); entity fields that the import reads with `??` or a truthiness
test are likewise `Option`s. -/

structure SnapDeck where
  id : ℕ
  name : List Char
  createdAt : Option ℚ
deriving DecidableEq, Repr

structure SnapNote where
  id : ℕ
  deckId : Option ℕ
  front : List Char
  back : List Char
  createdAt : Option ℚ
  updatedAt : Option ℚ
deriving DecidableEq, Repr

structure SnapCard where
  deckId : Option ℕ
  noteId : Option ℕ
  due : Option ℚ
  interval : Option ℚ
  ease : Option ℚ
  reps : Option ℚ
  lapses : Option ℚ
  state : Option CState
deriving DecidableEq, Repr

structure Snapshot where
  decks : Option (List SnapDeck)
  notes : Option (List SnapNote)
  cards : Option (List SnapCard)
deriving DecidableEq, Repr

/-- `x ? new Date(x) : now()`: a falsy (absent / null / 0) timestamp is
replaced by the current time. -/
def jsDate (o : Option ℚ) (t : ℚ) : ℚ :=
  match o with
  | none => t
  | some v => if v = 0 then t else v

/-- Lookup in an id-remapping list; entries are prepended, so the head is
the most recent binding, matching `Map.set`'s overwriting. -/
def lookupId : List (ℕ × ℕ) → ℕ → Option ℕ
  | [], _ => none
  | p :: m, k => if p.1 = k then some p.2 else lookupId m k

/-- First loop of `importJSON`: insert each snapshot deck with a fresh id,
recording `old id → new id`. -/
def impDecks (t : ℚ) : List SnapDeck → Store → List (ℕ × ℕ) →
    Store × List (ℕ × ℕ)
  | [], u, m => (u, m)
  | d :: ds, u, m =>
      impDecks t ds
        { u with
            decks := u.decks ++ [⟨u.nextDeckId, d.name, jsDate d.createdAt t⟩],
            nextDeckId := u.nextDeckId + 1 }
        ((d.id, u.nextDeckId) :: m)

/-- Second loop: insert each snapshot note with a fresh id, remapping its
`deckId` through the deck map (`undefined`, i.e. `none`, if absent). -/
def impNotes (t : ℚ) (dm : List (ℕ × ℕ)) : List SnapNote → Store →
    List (ℕ × ℕ) → Store × List (ℕ × ℕ)
  | [], u, m => (u, m)
  | n :: ns, u, m =>
      impNotes t dm ns
        { u with
            notes := u.notes ++
              [⟨u.nextNoteId, n.deckId.bind (lookupId dm), n.front, n.back,
                jsDate n.createdAt t, jsDate n.updatedAt t⟩],
            nextNoteId := u.nextNoteId + 1 }
        ((n.id, u.nextNoteId) :: m)

/-- Third loop: insert each snapshot card, remapping both references and
defaulting the scheduling fields with `??`. -/
def impCards (t : ℚ) (dm nm : List (ℕ × ℕ)) : List SnapCard → Store → Store
  | [], u => u
  | c :: cs, u =>
      impCards t dm nm cs
        { u with
            cards := u.cards ++
              [⟨u.nextCardId, c.deckId.bind (lookupId dm),
                c.noteId.bind (lookupId nm), jsDate c.due t,
                c.interval.getD 0, c.ease.getD 2.5, c.reps.getD 0,
                c.lapses.getD 0, c.state.getD CState.new⟩],
            nextCardId := u.nextCardId + 1 }

/-- `importJSON(obj)`: throw `'Invalid JSON format'` unless `decks`,
`notes` and `cards` are all present; otherwise insert everything with
fresh ids inside one transaction. -/
def importJSON (s : Store) (snap : Snapshot) (t : ℚ) :
    Except StoreError Store :=
  match snap.decks, snap.notes, snap.cards with
  | some ds, some ns, some cs =>
      let p1 := impDecks t ds s []
      let p2 := impNotes t p1.2 ns p1.1 []
      .ok (impCards t p1.2 p2.2 cs p2.1)
  | _, _, _ => .error .validation

/-- Running an import as the caller observes it: a thrown error leaves the
store as it was. -/
def importJSONRun (s : Store) (snap : Snapshot) (t : ℚ) :
    Store × Option StoreError :=
  match importJSON s snap t with
  | .ok u => (u, none)
  | .error e => (s, some e)

/-! ## CSV export / import (src/app.js)

String primitives, modelled on `List Char`. -/

/-- Newline. -/
def nl : Char := '\n'

/-- Carriage return. -/
def cr : Char := '\r'

/-- Comma. -/
def comma : Char := ','

/-- The whitespace characters `String.prototype.trim` strips (the subset
that can appear in this development). -/
def isWs (c : Char) : Bool := c == ' ' || c == '\t' || c == nl || c == cr

/-- JavaScript `s.trim()`. -/
def jsTrim (l : List Char) : List Char :=
  ((l.dropWhile isWs).reverse.dropWhile isWs).reverse

/-- JavaScript `s.toLowerCase()` (ASCII suffices here). -/
def jsToLower (l : List Char) : List Char := l.map Char.toLower

/-- JavaScript `s.replaceAll('""', '"')`: left-to-right, non-overlapping. -/
def undouble : List Char → List Char
  | [] => []
  | [c] => [c]
  | c :: c2 :: rest =>
      if c = dq ∧ c2 = dq then dq :: undouble rest
      else c :: undouble (c2 :: rest)
termination_by l => l.length
decreasing_by all_goals simp +arith [List.length_cons]

/-- `parseCell` of `importCSV`:

```js
s = s.trim();
if (s.startsWith('"') && s.endsWith('"')) return s.slice(1,-1).replaceAll('""','"');
return s;
``` -/
def parseCell (s : List Char) : List Char :=
  let t := jsTrim s
  if t.head? = some dq ∧ t.getLast? = some dq then undouble ((t.drop 1).dropLast)
  else t

/-- The character loop of `importCSV`'s naive quote-respecting splitter:

```js
let cur = '', inQ = false;
for (let i = 0; i < line.length; i++) {
  const ch = line[i];
  if (ch === '"' && line[i+1] === '"') { cur += '"'; i++; continue; }
  if (ch === '"') { inQ = !inQ; continue; }
  if (ch === ',' && !inQ) { parts.push(cur); cur = ''; continue; }
  cur += ch;
}
parts.push(cur);
``` -/
def splitLineAux : List Char → List Char → Bool → List (List Char)
  | [], cur, _ => [cur]
  | c :: c2 :: rest, cur, inQ =>
      if c = dq then
        if c2 = dq then splitLineAux rest (cur ++ [dq]) inQ
        else splitLineAux (c2 :: rest) cur (!inQ)
      else if c = comma ∧ inQ = false then cur :: splitLineAux (c2 :: rest) [] false
      else splitLineAux (c2 :: rest) (cur ++ [c]) inQ
  | [c], cur, inQ =>
      if c = dq then splitLineAux [] cur (!inQ)
      else if c = comma ∧ inQ = false then cur :: splitLineAux [] [] false
      else splitLineAux [] (cur ++ [c]) inQ
termination_by l _ _ => l.length
decreasing_by all_goals simp +arith [List.length_cons]

def splitLine (l : List Char) : List (List Char) := splitLineAux l [] false

/-- `text.split(/\r?\n/)`: a separator is `\r\n` or a bare `\n`; a bare
`\r` is ordinary content. -/
def splitNl : List Char → List (List Char)
  | [] => [[]]
  | [c] => if c = nl then [[], []] else [[c]]
  | c :: c2 :: rest =>
      if c = cr ∧ c2 = nl then [] :: splitNl rest
      else if c = nl then [] :: splitNl (c2 :: rest)
      else
        match splitNl (c2 :: rest) with
        | [] => [[c]]
        | l :: ls => (c :: l) :: ls
termination_by l => l.length
decreasing_by all_goals simp +arith [List.length_cons]

/-- `text.split(/\r?\n/).filter(Boolean)`: drop empty lines. -/
def csvLines (text : List Char) : List (List Char) :=
  (splitNl text).filter (fun l => !l.isEmpty)

/-- The header test of `importCSV`:
`/^deckName,?front,?back/i.test(header.replaceAll('"','').toLowerCase())`.
The regex is a PREFIX match with both commas optional, so it accepts any
of four prefixes. -/
def headerOk (h : List Char) : Bool :=
  let t := jsToLower (h.filter (fun c => !(c == dq)))
  List.isPrefixOf ("deckname,front,back".toList) t
    || List.isPrefixOf ("deckname,frontback".toList) t
    || List.isPrefixOf ("decknamefront,back".toList) t
    || List.isPrefixOf ("decknamefrontback".toList) t

/-- Modelled from the spec: "fails with FormatError if the header line does
not match (case-insensitively, quoting-agnostically) `deckName,front,back`"
— i.e. after stripping double quotes and lowercasing, the header IS
`deckname,front,back`. -/
def specHeaderMatch (h : List Char) : Bool :=
  jsToLower (h.filter (fun c => !(c == dq))) == "deckname,front,back".toList

/-- The `escape` of `objectsToCSV`: wrap in double quotes, doubling any
embedded double quote. -/
def escChars : List Char → List Char
  | [] => []
  | c :: cs => if c = dq then dq :: dq :: escChars cs else c :: escChars cs

def escape (v : List Char) : List Char := dq :: escChars v ++ [dq]

/-- The header row `['deckName','front','back'].join(',')`. -/
def csvHeader : List Char := "deckName,front,back".toList

/-- `deckById.get(n.deckId)?.name ?? 'Unknown'`.  The `Map` keeps the LAST
entry per key, hence the lookup on the reversed deck list. -/
def deckNameOf (s : Store) (n : Note) : List Char :=
  match n.deckId with
  | some k =>
      match s.decks.reverse.find? (fun d => d.id == k) with
      | some d => d.name
      | none => "Unknown".toList
  | none => "Unknown".toList

/-- One data row of `exportCSV`:
`[r.deckName, r.front, r.back].map(escape).join(',')`. -/
def rowOf (s : Store) (n : Note) : List Char :=
  List.intercalate [comma] [escape (deckNameOf s n), escape n.front, escape n.back]

/-- `exportCSV()`: header row then one row per note, joined by `'\n'`. -/
def exportCSV (s : Store) : List Char :=
  List.intercalate [nl] (csvHeader :: s.notes.map (rowOf s))

/-- JavaScript `x || d` on a possibly absent string: absent (`undefined`)
and the empty string are falsy. -/
def jsOrStr (o : Option (List Char)) (d : List Char) : List Char :=
  match o with
  | none => d
  | some s => if s = [] then d else s

/-- `getOrCreateDeckId(name)`: first deck with exactly that name, else a
fresh deck. -/
def getOrCreateDeckId (s : Store) (name : List Char) (t : ℚ) : Store × ℕ :=
  match s.decks.find? (fun d => d.name == name) with
  | some d => (s, d.id)
  | none => createDeck s name t

/-- One iteration of `importCSV`'s row loop:

```js
const [deckName, front, back] = parts.map(parseCell);
const deckId = await getOrCreateDeckId(deckName || 'Imported');
await createNote(deckId, { front: front || '', back: back || '' });
``` -/
def importRow (s : Store) (line : List Char) (t : ℚ) : Store :=
  let cells := (splitLine line).map parseCell
  let deckName := jsOrStr (cells.get? 0) ("Imported".toList)
  let front := jsOrStr (cells.get? 1) []
  let back := jsOrStr (cells.get? 2) []
  let p := getOrCreateDeckId s deckName t
  (createNote p.1 p.2 front back t).1

def importRows (s : Store) (t : ℚ) : List (List Char) → Store
  | [] => s
  | line :: rest => importRows (importRow s line t) t rest

/-- `importCSV(text)`: split into nonempty lines, shift the header, throw
`'CSV header must be: deckName,front,back'` unless the header test passes,
then process each data row independently. -/
def importCSV (s : Store) (text : List Char) (t : ℚ) :
    Except StoreError Store :=
  match csvLines text with
  | [] => .error .format
  | header :: rows =>
      if headerOk header then .ok (importRows s t rows) else .error .format

/-! ## Claim C8: the header check -/

/-- A header whose third column name differs (`backs`, not `back`). -/
def c8text : List Char := "deckName,front,backs".toList

/-- A header that cannot match at all. -/
def c8xtext : List Char := "x".toList

/-! ## Round trip `exportCSV` → `importCSV` (claim C9)

What the quote-respecting splitter makes of one exported field: the field
itself, except that an all-quotes field gains one extra quote (the opening
quote pairs with the first content quote). -/
def allDq (x : List Char) : Bool := x.all (fun c => c == dq)

def parsedA (x : List Char) : List Char := if allDq x then x ++ [dq] else x

/-- A field that survives `parseCell` unchanged after the splitter: no line
break (it would break the row apart), stable under `trim`, and not both
starting and ending with a double quote. -/
def cleanField (x : List Char) : Prop :=
  nl ∉ x ∧ cr ∉ x ∧ jsTrim x = x
    ∧ ¬(x.head? = some dq ∧ x.getLast? = some dq)

/-- The cleanliness conditions on one note under which its exported row
re-imports exactly. -/
def rowClean (s : Store) (n : Note) : Prop :=
  cleanField (deckNameOf s n) ∧ deckNameOf s n ≠ []
    ∧ cleanField n.front ∧ cleanField n.back

instance (x : List Char) : Decidable (cleanField x) := by
  unfold cleanField; infer_instance

instance (s : Store) (n : Note) : Decidable (rowClean s n) := by
  unfold rowClean; infer_instance

/-- A one-deck, one-note store with clean fields. -/
def c9store : Store :=
  ⟨[⟨1, "D".toList, 0⟩], [⟨1, some 1, "f".toList, "b".toList, 0, 0⟩],
    [⟨1, some 1, some 1, 0, 0, 2, 0, 0, .new⟩], 2, 2, 2⟩

/-- The note of `c9bad`, whose front has a leading space. -/
def note9 : Note := ⟨1, some 1, " a".toList, "b".toList, 0, 0⟩

/-- A store whose single note has a front field that is NOT stable under
trimming. -/
def c9bad : Store := ⟨[⟨1, "D".toList, 0⟩], [note9], [], 2, 2, 2⟩

/-! ## Referential integrity (claim C4) -/

/-- The invariant of claim C4: every card's `noteId` refers to an existing
note and every note's `deckId` refers to an existing deck. -/
def RefIntegrity (s : Store) : Prop :=
  (∀ n ∈ s.notes, ∃ d ∈ s.decks, n.deckId = some d.id)
    ∧ ∀ c ∈ s.cards, ∃ n ∈ s.notes, c.noteId = some n.id

/-- Strengthened invariant for the induction: each card's denormalised
`deckId` also agrees with its note's `deckId` (this is what makes
`deleteDeck`'s card filter remove exactly the cards of the deleted
notes). -/
def Integ (s : Store) : Prop :=
  (∀ n ∈ s.notes, ∃ d ∈ s.decks, n.deckId = some d.id)
    ∧ ∀ c ∈ s.cards, ∃ n ∈ s.notes, c.noteId = some n.id ∧ c.deckId = n.deckId

/-- A snapshot whose internal references resolve: present keys, every note
pointing to a snapshot deck, every card pointing to a snapshot note with a
consistent `deckId`, and duplicate-free note ids. -/
def SnapClosed (snap : Snapshot) : Prop :=
  ∃ ds ns cs, snap.decks = some ds ∧ snap.notes = some ns ∧ snap.cards = some cs
    ∧ (∀ n ∈ ns, ∃ d ∈ ds, n.deckId = some d.id)
    ∧ (∀ c ∈ cs, ∃ n ∈ ns, c.noteId = some n.id ∧ c.deckId = n.deckId)
    ∧ (ns.map SnapNote.id).Nodup

/-- Store states reachable through the Store operations, with `createNote`
invoked only on an existing deck and `importJSON` only on closed
snapshots (the unguarded operations can create dangling references, which
is the content of the counterexample). -/
inductive Reach : Store → Prop where
  | empty : Reach emptyStore
  | createDeck (s : Store) (name : List Char) (t : ℚ) :
      Reach s → Reach (createDeck s name t).1
  | renameDeck (s : Store) (id : ℕ) (name : List Char) :
      Reach s → Reach (renameDeck s id name)
  | deleteDeck (s : Store) (id : ℕ) : Reach s → Reach (deleteDeck s id)
  | createNote (s : Store) (did : ℕ) (f b : List Char) (t : ℚ) :
      Reach s → deckExists s did → Reach (createNote s did f b t).1
  | updateNote (s : Store) (nid : ℕ) (f b : List Char) (t : ℚ) :
      Reach s → Reach (updateNote s nid f b t)
  | deleteNote (s : Store) (nid : ℕ) : Reach s → Reach (deleteNote s nid)
  | updateCard (s : Store) (cid : ℕ) (p : CardPatch) :
      Reach s → Reach (updateCard s cid p)
  | importCSV (s s2 : Store) (text : List Char) (t : ℚ) :
      Reach s → importCSV s text t = Except.ok s2 → Reach s2
  | importJSON (s s2 : Store) (snap : Snapshot) (t : ℚ) :
      Reach s → SnapClosed snap → importJSON s snap t = Except.ok s2 → Reach s2

/-- Soundness of a deck-id map: every value is an existing deck id. -/
def dmOK (u : Store) (m : List (ℕ × ℕ)) : Prop :=
  ∀ k v, lookupId m k = some v → ∃ d ∈ u.decks, d.id = v

/-- Soundness of a note-id map relative to the full snapshot-note list
`NS`: every value is the id of a stored note whose `deckId` is the deck
remap of the corresponding snapshot note. -/
def nmOK (NS : List SnapNote) (dm : List (ℕ × ℕ)) (u : Store)
    (m : List (ℕ × ℕ)) : Prop :=
  ∀ k v, lookupId m k = some v → ∃ note ∈ u.notes, note.id = v
    ∧ ∃ n ∈ NS, n.id = k ∧ note.deckId = n.deckId.bind (lookupId dm)

/-! ## Theorems -/

/-- Evaluation rule for `jsRound` at concrete arguments. -/
theorem jsRound_eq {q : ℚ} {n : ℤ} (h1 : (n : ℚ) ≤ q + 1/2)
    (h2 : q + 1/2 < n + 1) : jsRound q = (n : ℚ) := by
  unfold jsRound
  rw [Int.floor_eq_iff.mpr ⟨h1, by exact_mod_cast h2⟩]

example : (schedule baseCard .good 0).interval = some 1 := by
  norm_num [schedule, jsOr, baseCard]

example : (schedule (schedule baseCard .good 0) .good 1).interval = some 6 := by
  norm_num [schedule, jsOr, baseCard]

example : (schedule baseCard .easy 0).interval = some 4 := by
  norm_num [schedule, jsOr, baseCard]

example : (schedule baseCard .easy 0).ease = some 2.65 := by
  norm_num [schedule, jsOr, baseCard]

/-! ## Scheduler lemmas -/

theorem jsOr_some_of_ne {v d : ℚ} (h : v ≠ 0) : jsOr (some v) d = v := by
  simp [jsOr, h]

theorem jsOr_some_zero (v : ℚ) : jsOr (some v) 0 = v := by
  by_cases h : v = 0 <;> simp [jsOr, h]

theorem jsOr_jsOr (o : Option ℚ) (d : ℚ) : jsOr (some (jsOr o d)) d = jsOr o d := by
  rcases o with _ | v <;> simp [jsOr] <;> split_ifs <;> simp_all

/-- Single-step ease/interval window: from ease in `[1.3, 3.5]`, any grade
keeps ease in `[1.3, 3.5]`, yields interval ≥ 1, and `hard`/`again` do not
increase ease. -/
theorem schedule_ease_window (c : SchedCard) (e : ℚ) (g : Grade) (now : ℚ)
    (he : c.ease = some e) (h1 : (1.3 : ℚ) ≤ e) (h2 : e ≤ 3.5) :
    ∃ e2 i2, (schedule c g now).ease = some e2
      ∧ (schedule c g now).interval = some i2
      ∧ (1.3 : ℚ) ≤ e2 ∧ e2 ≤ 3.5 ∧ 1 ≤ i2
      ∧ ((g = .hard ∨ g = .again) → e2 ≤ e) := by
  have hee : jsOr c.ease 2.5 = e := by
    rw [he]; exact jsOr_some_of_ne (by linarith)
  cases g
  · refine ⟨max 1.3 (e - 0.2), 1, by simp [schedule, hee], by simp [schedule], ?_⟩
    refine ⟨le_max_left _ _, max_le (by norm_num) (by linarith), le_refl _, ?_⟩
    exact fun _ => max_le h1 (by linarith)
  · refine ⟨max 1.3 (e - 0.15),
      max 1 (jsRound (max 1 (jsOr c.interval 0) * 1.2)),
      by simp [schedule, hee], by simp [schedule], ?_⟩
    refine ⟨le_max_left _ _, max_le (by norm_num) (by linarith), le_max_left _ _, ?_⟩
    exact fun _ => max_le h1 (by linarith)
  · refine ⟨e,
      if jsOr c.reps 0 = 0 then 1 else if jsOr c.reps 0 = 1 then 6
        else max 1 (jsRound (jsOr c.interval 0 * jsOr c.ease 2.5)),
      by simp [schedule, hee], by simp [schedule], h1, h2, ?_, ?_⟩
    · split_ifs <;> first | norm_num | exact le_max_left _ _
    · rintro (h | h) <;> exact absurd h (by simp)
  · refine ⟨min 3.5 (e + 0.15),
      if jsOr c.reps 0 = 0 then 4
        else max 1 (jsRound (jsOr c.interval 0 * (min 3.5 (jsOr c.ease 2.5 + 0.15) + 0.2))),
      by simp [schedule, hee], by simp [schedule], ?_⟩
    refine ⟨le_min (by norm_num) (by linarith), min_le_left _ _, ?_, ?_⟩
    · split_ifs <;> first | norm_num | exact le_max_left _ _
    · rintro (h | h) <;> exact absurd h (by simp)

/-- The ease window is preserved along any number of `easy` reviews. -/
theorem easyIter_ease_window (c : SchedCard) (e : ℚ) (now : ℚ)
    (he : c.ease = some e) (h1 : (1.3 : ℚ) ≤ e) (h2 : e ≤ 3.5) (k : ℕ) :
    ∃ e2, (easyIter c now k).ease = some e2 ∧ (1.3 : ℚ) ≤ e2 ∧ e2 ≤ 3.5 := by
  induction k with
  | zero => exact ⟨e, he, h1, h2⟩
  | succ k ih =>
      obtain ⟨e2, he2, h21, h22⟩ := ih
      obtain ⟨e3, _, he3, _, h31, h32, _⟩ :=
        schedule_ease_window (easyIter c now k) e2 .easy now he2 h21 h22
      exact ⟨e3, he3, h31, h32⟩

/-- C1 counterexample: grading `c1card` as `easy` yields interval `285`
(= `round(100 × ((2.5 + 0.15) + 0.2))`, computed from the ease already
increased by 0.15), while the claimed pre-update formula
`max(1, round(interval × (ease + 0.2)))` gives `270`. -/
theorem c1_counterexample :
    (schedule c1card .easy 0).interval = some 285
      ∧ max 1 (jsRound ((100 : ℚ) * (2.5 + 0.2))) = 270
      ∧ (285 : ℚ) ≠ 270 := by
  have h285 : jsRound (285 : ℚ) = 285 := by
    rw [jsRound_eq (n := 285) (by norm_num) (by norm_num)]; norm_num
  have h270 : jsRound (270 : ℚ) = 270 := by
    rw [jsRound_eq (n := 270) (by norm_num) (by norm_num)]; norm_num
  refine ⟨?_, ?_, by norm_num⟩
  · have harg : (100 : ℚ) * (min 3.5 (2.5 + 0.15) + 0.2) = 285 := by norm_num
    norm_num [schedule, c1card, jsOr, harg, h285]
  · norm_num [h270]

/-- C1 (amended): for every card with `reps > 0` graded `easy`, the new
interval is `max(1, round(interval × (ease′ + 0.2)))` where
`ease′ = min(3.5, ease + 0.15)` is the POST-update ease: the `easy` branch
reassigns `ease` before computing the interval, unlike the other branches,
which use pre-update values. -/
theorem c1_easy_uses_updated_ease (c : SchedCard) (i e r now : ℚ)
    (hi : c.interval = some i) (he : c.ease = some e) (he0 : 0 < e)
    (hr : c.reps = some r) (hr0 : 0 < r) :
    (schedule c .easy now).interval
      = some (max 1 (jsRound (i * (min 3.5 (e + 0.15) + 0.2))))
      ∧ (schedule c .easy now).ease = some (min 3.5 (e + 0.15)) := by
  have hee : jsOr c.ease 2.5 = e := by
    rw [he]; exact jsOr_some_of_ne (ne_of_gt he0)
  have hii : jsOr c.interval 0 = i := by rw [hi]; exact jsOr_some_zero _
  have hrr : jsOr c.reps 0 = r := by rw [hr]; exact jsOr_some_zero _
  constructor <;> simp [schedule, hee, hii, hrr, (ne_of_gt hr0)]

theorem c1_witness :
    (schedule ⟨some 10, some 2, some 1, some 0, none, CState.new⟩ .easy 0).interval
      = some (max 1 (jsRound (10 * (min 3.5 ((2 : ℚ) + 0.15) + 0.2)))) :=
  (c1_easy_uses_updated_ease _ 10 2 1 0 rfl rfl (by norm_num) rfl
    (by norm_num)).1

/-- C3: on grade `again`, a valid card gets ease ≥ 1.3, interval 1, reps 0,
lapses incremented, and state `'review'` (even though `again` is a
failure). -/
theorem c3_again_contract (c : SchedCard) (e i r l now : ℚ)
    (he : c.ease = some e) (he1 : (1.3 : ℚ) ≤ e)
    (hi : c.interval = some i) (hi0 : 0 ≤ i)
    (hr : c.reps = some r) (hr0 : 0 ≤ r)
    (hl : c.lapses = some l) (hl0 : 0 ≤ l) :
    ∃ e2, (schedule c .again now).ease = some e2 ∧ (1.3 : ℚ) ≤ e2
      ∧ (schedule c .again now).interval = some 1
      ∧ (schedule c .again now).reps = some 0
      ∧ (schedule c .again now).lapses = some (l + 1)
      ∧ (schedule c .again now).state = CState.review := by
  have hee : jsOr c.ease 2.5 = e := by
    rw [he]; exact jsOr_some_of_ne (by linarith)
  have hll : jsOr c.lapses 0 = l := by rw [hl]; exact jsOr_some_zero _
  exact ⟨max 1.3 (e - 0.2), by simp [schedule, hee], le_max_left _ _,
    by simp [schedule], by simp [schedule], by simp [schedule, hll],
    by simp [schedule]⟩

theorem c3_witness :
    ∃ e2, (schedule baseCard .again 7).ease = some e2 ∧ (1.3 : ℚ) ≤ e2
      ∧ (schedule baseCard .again 7).interval = some 1
      ∧ (schedule baseCard .again 7).reps = some 0
      ∧ (schedule baseCard .again 7).lapses = some (0 + 1)
      ∧ (schedule baseCard .again 7).state = CState.review :=
  c3_again_contract baseCard 2.5 0 0 0 7 rfl (by norm_num) rfl (by norm_num)
    rfl (by norm_num) rfl (by norm_num)

/-- C5: with ease in `[1.3, 3.5]`, any grade returns ease in `[1.3, 3.5]`
and interval ≥ 1; `hard`/`again` never increase ease, and iterated `easy`
grades never push ease above 3.5. -/
theorem c5_ease_interval_bounds (c : SchedCard) (e : ℚ) (g : Grade) (now : ℚ)
    (he : c.ease = some e) (h1 : (1.3 : ℚ) ≤ e) (h2 : e ≤ 3.5) :
    (∃ e2 i2, (schedule c g now).ease = some e2
      ∧ (schedule c g now).interval = some i2
      ∧ (1.3 : ℚ) ≤ e2 ∧ e2 ≤ 3.5 ∧ 1 ≤ i2
      ∧ ((g = .hard ∨ g = .again) → e2 ≤ e))
    ∧ ∀ k e3, (easyIter c now k).ease = some e3 → e3 ≤ 3.5 := by
  refine ⟨schedule_ease_window c e g now he h1 h2, fun k e3 h3 => ?_⟩
  obtain ⟨e2, he2, _, h22⟩ := easyIter_ease_window c e now he h1 h2 k
  rw [he2] at h3
  exact Option.some_injective _ h3 ▸ h22

theorem c5_witness :
    (∃ e2 i2, (schedule baseCard .hard 0).ease = some e2
      ∧ (schedule baseCard .hard 0).interval = some i2
      ∧ (1.3 : ℚ) ≤ e2 ∧ e2 ≤ 3.5 ∧ 1 ≤ i2
      ∧ ((Grade.hard = .hard ∨ Grade.hard = .again) → e2 ≤ 2.5))
    ∧ ∀ k e3, (easyIter baseCard 0 k).ease = some e3 → e3 ≤ 3.5 :=
  c5_ease_interval_bounds baseCard 2.5 .hard 0 rfl (by norm_num) (by norm_num)

/-- C10: `schedule` substitutes defaults for falsy scheduling fields
(missing / null / 0): it behaves identically on the normalised card, and a
card with `ease = 0` (or no ease) graded `good` with `reps ≥ 2` gets
`interval = max(1, round(interval × 2.5))`. -/
theorem c10_falsy_defaults :
    (∀ c g now, schedule c g now = schedule (normCard c) g now)
    ∧ ∀ (c : SchedCard) (i r now : ℚ), (c.ease = none ∨ c.ease = some 0) →
        c.interval = some i → c.reps = some r → 2 ≤ r →
        (schedule c .good now).interval = some (max 1 (jsRound (i * 2.5))) := by
  constructor
  · intro c g now
    simp [schedule, normCard, jsOr_jsOr]
  · intro c i r now hez hi hr hr2
    have hee : jsOr c.ease 2.5 = 2.5 := by rcases hez with h | h <;> simp [h, jsOr]
    have hii : jsOr c.interval 0 = i := by rw [hi]; exact jsOr_some_zero _
    have hrr : jsOr c.reps 0 = r := by rw [hr]; exact jsOr_some_zero _
    have hr0 : r ≠ 0 := by linarith
    have hr1 : r ≠ 1 := by intro h; rw [h] at hr2; linarith
    simp [schedule, hee, hii, hrr, hr0, hr1]

theorem c10_witness :
    ((2 : ℚ) ≤ 3)
      ∧ (schedule ⟨some 2, some 0, some 3, none, none, CState.new⟩ .good 0).interval
        = some (max 1 (jsRound ((2 : ℚ) * 2.5))) :=
  ⟨by norm_num, c10_falsy_defaults.2 _ 2 3 0 (Or.inr rfl) rfl rfl (by norm_num)⟩

/-! ## Claims C2 (createNote) and C6 (getDueCards) -/

/-- C2 (amended): `createNote` performs no existence check on `deckId`;
for EVERY `deckId` it atomically inserts exactly one note and one card with
the stated new-card scheduling defaults and returns both new ids. -/
theorem c2_createNote_inserts (s : Store) (did : ℕ) (f b : List Char) (t : ℚ) :
    ∃ note card,
      (createNote s did f b t).1.notes = s.notes ++ [note]
      ∧ (createNote s did f b t).1.cards = s.cards ++ [card]
      ∧ (createNote s did f b t).1.decks = s.decks
      ∧ (createNote s did f b t).2 = (note.id, card.id)
      ∧ note.deckId = some did ∧ note.front = f ∧ note.back = b
      ∧ note.createdAt = t
      ∧ card.deckId = some did ∧ card.noteId = some note.id
      ∧ card.due = t ∧ card.interval = 0 ∧ card.ease = 2.5
      ∧ card.reps = 0 ∧ card.lapses = 0 ∧ card.state = CState.new :=
  ⟨_, _, rfl, rfl, rfl, rfl, rfl, rfl, rfl, rfl, rfl, rfl, rfl, rfl, rfl,
    rfl, rfl, rfl⟩

/-- C2 counterexample: with no deck `1` in the (empty) store, `createNote`
does NOT fail with a `NotFoundError`; it inserts the note and card anyway. -/
theorem c2_counterexample :
    ¬ deckExists emptyStore 1
      ∧ (createNote emptyStore 1 [] [] 0).1.notes.length = 1
      ∧ (createNote emptyStore 1 [] [] 0).1.cards.length = 1 :=
  ⟨by decide, rfl, rfl⟩

/-- C6: every card returned by `getDueCards` belongs to the deck, is not
suspended, and is due; at most `limit` cards are returned. -/
theorem c6_dueCards_filtered (s : Store) (did : ℕ) (limit : ℕ) (now : ℚ) :
    (∀ c ∈ getDueCards s did limit now,
      c.deckId = some did ∧ c.state ≠ CState.suspended ∧ c.due ≤ now)
    ∧ (getDueCards s did limit now).length ≤ limit := by
  constructor
  · intro c hc
    have hm := List.mem_of_mem_take hc
    rw [List.mem_filter] at hm
    obtain ⟨-, hp⟩ := hm
    simp only [Bool.and_eq_true, beq_iff_eq, decide_eq_true_eq,
      Bool.not_eq_true', beq_eq_false_iff_ne] at hp
    exact ⟨hp.1.1, hp.2, hp.1.2⟩
  · simpa [getDueCards] using List.length_take_le limit _

theorem c6_witness :
    (c6card.deckId = some 1 ∧ c6card.state ≠ CState.suspended
      ∧ c6card.due ≤ 3)
    ∧ (getDueCards c6store 1 5 3).length ≤ 5 :=
  ⟨(c6_dueCards_filtered c6store 1 5 3).1 c6card (by decide),
    (c6_dueCards_filtered c6store 1 5 3).2⟩

/-- C7: a snapshot missing any of `decks`/`notes`/`cards` makes
`importJSON` fail with the validation error, leaving the store exactly as
it was. -/
theorem c7_importJSON_validation (s : Store) (snap : Snapshot) (t : ℚ)
    (h : snap.decks = none ∨ snap.notes = none ∨ snap.cards = none) :
    importJSONRun s snap t = (s, some StoreError.validation) := by
  obtain ⟨q1, q2, q3⟩ := snap
  rcases q1 with _ | d <;> rcases q2 with _ | n <;> rcases q3 with _ | c <;>
    simp_all [importJSONRun, importJSON]

theorem c7_witness :
    importJSONRun emptyStore ⟨some [], some [], none⟩ 0
      = (emptyStore, some StoreError.validation) :=
  c7_importJSON_validation emptyStore ⟨some [], some [], none⟩ 0
    (Or.inr (Or.inr rfl))

/-- C8 counterexample: the header `deckName,front,backs` differs from
`deckName,front,back` in its third column name, yet `importCSV` accepts it
(the regex has no end anchor), contradicting the claim that such headers
fail with a `FormatError`. -/
theorem c8_counterexample :
    specHeaderMatch c8text = false
      ∧ importCSV emptyStore c8text 0 = Except.ok emptyStore := by
  constructor
  · decide
  · have hl : csvLines c8text = [c8text] := by
      simp [c8text, csvLines, splitNl, nl, cr]
    unfold importCSV
    rw [hl]
    simp [show headerOk c8text = true from by decide, importRows]

/-- C8 (amended): `importCSV` fails with the format error exactly when
there is no first nonempty line passing `headerOk` — a PREFIX match, after
stripping double quotes and lowercasing, of `deckname`, optional comma,
`front`, optional comma, `back`, with trailing content ignored.  Every
header matching the spec's exact rule is in particular accepted. -/
theorem c8_header_rule :
    (∀ (s : Store) (text : List Char) (t : ℚ),
      importCSV s text t = Except.error StoreError.format
        ↔ ¬ ∃ hline, (csvLines text).head? = some hline ∧ headerOk hline = true)
    ∧ ∀ hline, specHeaderMatch hline = true → headerOk hline = true := by
  constructor
  · intro s text t
    unfold importCSV
    cases hcl : csvLines text with
    | nil => simp
    | cons hd rows =>
        by_cases hh : headerOk hd = true <;> simp [hh]
  · intro hline hm
    have ht : jsToLower (hline.filter (fun c => !(c == dq)))
        = "deckname,front,back".toList := by
      simpa [specHeaderMatch] using hm
    simp [headerOk, ht, List.isPrefixOf_iff_prefix]

theorem c8_witness :
    importCSV emptyStore c8xtext 0 = Except.error StoreError.format :=
  (c8_header_rule.1 emptyStore c8xtext 0).mpr (by
    have hl : csvLines c8xtext = [c8xtext] := by
      simp [c8xtext, csvLines, splitNl, nl, cr]
    rw [hl]
    simp [show headerOk c8xtext = false from by decide])

/-! Single-step equations for `splitLineAux`. -/

theorem sla_nil (cur : List Char) (inQ : Bool) :
    splitLineAux [] cur inQ = [cur] := by
  simp [splitLineAux]

theorem sla_dq_dq (l cur : List Char) (inQ : Bool) :
    splitLineAux (dq :: dq :: l) cur inQ = splitLineAux l (cur ++ [dq]) inQ := by
  simp [splitLineAux]

theorem sla_dq_end (cur : List Char) (inQ : Bool) :
    splitLineAux [dq] cur inQ = [cur] := by
  simp [splitLineAux]

theorem sla_dq_other (c : Char) (l cur : List Char) (inQ : Bool) (h : c ≠ dq) :
    splitLineAux (dq :: c :: l) cur inQ = splitLineAux (c :: l) cur (!inQ) := by
  simp [splitLineAux, h]

theorem sla_comma (l cur : List Char) :
    splitLineAux (comma :: l) cur false = cur :: splitLineAux l [] false := by
  have hcd : ¬(comma = dq) := by decide
  cases l <;> simp [splitLineAux, hcd]

theorem sla_other (c : Char) (l cur : List Char) (inQ : Bool) (h1 : c ≠ dq)
    (h2 : ¬(c = comma ∧ inQ = false)) :
    splitLineAux (c :: l) cur inQ = splitLineAux l (cur ++ [c]) inQ := by
  cases l <;> simp [splitLineAux, h1, h2]

theorem escChars_cons_dq (cs : List Char) :
    escChars (dq :: cs) = dq :: dq :: escChars cs := by
  simp [escChars]

theorem escChars_cons_ne (c : Char) (cs : List Char) (h : c ≠ dq) :
    escChars (c :: cs) = c :: escChars cs := by
  simp [escChars, h]

/-- Inside quotes, the splitter undoes the escaping of a field and the
closing quote returns to unquoted state. -/
theorem sla_inquote (x : List Char) : ∀ (rest cur : List Char),
    rest.head? ≠ some dq →
    splitLineAux (escChars x ++ dq :: rest) cur true
      = splitLineAux rest (cur ++ x) false := by
  induction x with
  | nil =>
      intro rest cur hrest
      cases rest with
      | nil => simp [escChars, sla_dq_end, sla_nil]
      | cons r rs =>
          have hr : r ≠ dq := by
            intro h; exact hrest (by simp [h])
          simp [escChars, sla_dq_other r rs cur true hr]
  | cons c cs ih =>
      intro rest cur hrest
      by_cases hc : c = dq
      · subst hc
        rw [escChars_cons_dq, List.cons_append, List.cons_append, sla_dq_dq,
          ih rest (cur ++ [dq]) hrest]
        simp
      · have h2 : ¬(c = comma ∧ (true : Bool) = false) := by simp
        rw [escChars_cons_ne c cs hc, List.cons_append,
          sla_other c _ cur true hc h2, ih rest (cur ++ [c]) hrest]
        simp

/-- From unquoted state, one quoted-and-escaped field is consumed whole,
appending `parsedA` of the field to the current cell. -/
theorem sla_field (x : List Char) : ∀ (rest cur : List Char),
    rest.head? ≠ some dq →
    splitLineAux (dq :: (escChars x ++ dq :: rest)) cur false
      = splitLineAux rest (cur ++ parsedA x) false := by
  induction x with
  | nil =>
      intro rest cur hrest
      simp [escChars, sla_dq_dq, parsedA, allDq]
  | cons c cs ih =>
      intro rest cur hrest
      by_cases hc : c = dq
      · subst hc
        rw [escChars_cons_dq, List.cons_append, List.cons_append, sla_dq_dq,
          ih rest (cur ++ [dq]) hrest]
        by_cases hall : allDq cs
        · have h1 : allDq (dq :: cs) = true := by
            simp [allDq] at hall ⊢; exact hall
          simp [parsedA, hall, h1]
        · have h1 : allDq (dq :: cs) = false := by
            simp [allDq] at hall ⊢; exact hall
          simp [parsedA, hall, h1]
      · have h2 : ¬(c = comma ∧ (true : Bool) = false) := by simp
        have hall : allDq (c :: cs) = false := by
          simp [allDq]; intro h; exact absurd h hc
        rw [escChars_cons_ne c cs hc, List.cons_append,
          sla_dq_other c _ cur false hc, Bool.not_false,
          sla_other c _ cur true hc h2, sla_inquote cs rest (cur ++ [c]) hrest]
        simp [parsedA, hall]

/-- Consuming a whole field at the start of the remaining stream. -/
theorem sla_field_step (x : List Char) (rest : List Char)
    (hrest : rest.head? ≠ some dq) (cur : List Char) :
    splitLineAux (escape x ++ rest) cur false
      = splitLineAux rest (cur ++ parsedA x) false := by
  have hsh : escape x ++ rest = dq :: (escChars x ++ dq :: rest) := by
    simp [escape]
  rw [hsh, sla_field x rest cur hrest]

/-- Consuming the final field of a line. -/
theorem sla_last_field (x : List Char) (cur : List Char) :
    splitLineAux (escape x) cur false = [cur ++ parsedA x] := by
  have hsh : escape x = escape x ++ ([] : List Char) := by simp
  rw [hsh, sla_field_step x [] (by simp) cur, sla_nil]

/-- The splitter applied to one full exported row. -/
theorem splitLine_row (a b c : List Char) :
    splitLine (escape a ++ comma :: (escape b ++ comma :: escape c))
      = [parsedA a, parsedA b, parsedA c] := by
  have hcomma : ∀ (l : List Char), (comma :: l).head? ≠ some dq := by
    intro l h
    rw [List.head?_cons] at h
    exact absurd (Option.some_injective _ h) (by decide)
  unfold splitLine
  rw [sla_field_step a _ (hcomma _) [], sla_comma,
    sla_field_step b _ (hcomma _) [], sla_comma, sla_last_field]
  simp

/-- `parseCell` recovers a clean field from the splitter's output. -/
theorem parseCell_parsedA (x : List Char) (hx : cleanField x) :
    parseCell (parsedA x) = x := by
  obtain ⟨-, -, htrim, hquote⟩ := hx
  by_cases hall : allDq x
  · cases x with
    | nil =>
        have h1 : parsedA [] = [dq] := by decide
        have h2 : jsTrim [dq] = [dq] := by decide
        rw [h1]
        simp [parseCell, h2, undouble]
    | cons c cs =>
        exfalso
        apply hquote
        have hc : c = dq := by
          have := (List.all_eq_true.mp hall) c (by simp)
          simpa using this
        constructor
        · simp [hc]
        · have hlast := (List.all_eq_true.mp hall) ((c :: cs).getLast (by simp))
            (List.getLast_mem (by simp))
          rw [List.getLast?_eq_getLast (c :: cs) (by simp)]
          simpa using hlast
  · simp only [parsedA, if_neg hall, parseCell]
    rw [htrim, if_neg hquote]

/-! ### Splitting the exported text back into lines -/

theorem intercalate_cons (sep x y : List Char) (ys : List (List Char)) :
    List.intercalate sep (x :: y :: ys) = x ++ sep ++ List.intercalate sep (y :: ys) := by
  simp [List.intercalate, List.intersperse]

theorem splitNl_nl (rest : List Char) :
    splitNl (nl :: rest) = [] :: splitNl rest := by
  cases rest <;> simp [splitNl, show nl ≠ cr from by decide]

theorem splitNl_no_sep (p : List Char) (h1 : nl ∉ p) (h2 : cr ∉ p) :
    splitNl p = [p] := by
  induction p with
  | nil => simp [splitNl]
  | cons c cs ih =>
      have hc1 : c ≠ nl := fun h => h1 (by simp [h])
      have hc2 : c ≠ cr := fun h => h2 (by simp [h])
      have ihv : splitNl cs = [cs] :=
        ih (fun h => h1 (by simp [h])) (fun h => h2 (by simp [h]))
      cases cs with
      | nil => simp [splitNl, hc1]
      | cons c2 cs2 => simp [splitNl, hc1, hc2, ihv]

/-- A non-separator head character is prepended to the first piece. -/
theorem splitNl_cons_other (c : Char) (l : List Char) (hc1 : c ≠ nl)
    (hc2 : c ≠ cr) {p : List Char} {ps : List (List Char)}
    (h : splitNl l = p :: ps) (hl : l ≠ []) :
    splitNl (c :: l) = (c :: p) :: ps := by
  cases l with
  | nil => exact absurd rfl hl
  | cons c2 cs2 =>
      have heq : splitNl (c :: c2 :: cs2)
          = match splitNl (c2 :: cs2) with
            | [] => [[c]]
            | l :: ls => (c :: l) :: ls := by
        simp [splitNl, hc1, hc2]
      rw [heq, h]

theorem splitNl_append (p rest : List Char) (h1 : nl ∉ p) (h2 : cr ∉ p) :
    splitNl (p ++ nl :: rest) = p :: splitNl rest := by
  induction p with
  | nil => simpa using splitNl_nl rest
  | cons c cs ih =>
      have hc1 : c ≠ nl := fun h => h1 (by simp [h])
      have hc2 : c ≠ cr := fun h => h2 (by simp [h])
      have ihv : splitNl (cs ++ nl :: rest) = cs :: splitNl rest :=
        ih (fun h => h1 (by simp [h])) (fun h => h2 (by simp [h]))
      rw [List.cons_append]
      exact splitNl_cons_other c _ hc1 hc2 ihv (by cases cs <;> simp)

theorem splitNl_intercalate : ∀ (ps : List (List Char)), ps ≠ [] →
    (∀ p ∈ ps, nl ∉ p ∧ cr ∉ p) →
    splitNl (List.intercalate [nl] ps) = ps
  | [], h, _ => absurd rfl h
  | [p], _, hc => by
      have := hc p (by simp)
      simpa [List.intercalate] using splitNl_no_sep p this.1 this.2
  | p :: q :: ps, _, hc => by
      have hp := hc p (by simp)
      have htl := splitNl_intercalate (q :: ps) (by simp)
        (fun r hr => hc r (by simp [hr]))
      rw [intercalate_cons]
      have hshape : p ++ [nl] ++ List.intercalate [nl] (q :: ps)
          = p ++ nl :: List.intercalate [nl] (q :: ps) := by simp
      rw [hshape, splitNl_append p _ hp.1 hp.2, htl]

theorem csvLines_intercalate (ps : List (List Char)) (hne : ps ≠ [])
    (hc : ∀ p ∈ ps, nl ∉ p ∧ cr ∉ p) (h0 : ∀ p ∈ ps, p ≠ []) :
    csvLines (List.intercalate [nl] ps) = ps := by
  unfold csvLines
  rw [splitNl_intercalate ps hne hc]
  refine List.filter_eq_self.mpr ?_
  intro p hp
  simpa using h0 p hp

/-! ### Shape of an exported row -/

theorem mem_escChars {c : Char} : ∀ {x : List Char}, c ∈ escChars x →
    c = dq ∨ c ∈ x := by
  intro x
  induction x with
  | nil => intro h; simp [escChars] at h
  | cons a as ih =>
      intro h
      by_cases ha : a = dq
      · rw [escChars, if_pos ha] at h
        simp only [List.mem_cons] at h
        rcases h with h | h | h
        · exact Or.inl h
        · exact Or.inl h
        · rcases ih h with h | h
          · exact Or.inl h
          · exact Or.inr (List.mem_cons_of_mem a h)
      · rw [escChars, if_neg ha] at h
        simp only [List.mem_cons] at h
        rcases h with h | h
        · exact Or.inr (by simp [h])
        · rcases ih h with h | h
          · exact Or.inl h
          · exact Or.inr (List.mem_cons_of_mem a h)

theorem not_mem_escape {c : Char} {x : List Char} (hc : c ≠ dq) (hx : c ∉ x) :
    c ∉ escape x := by
  intro h
  rw [escape] at h
  rcases List.mem_cons.mp h with h | h
  · exact hc h
  · rcases List.mem_append.mp h with h | h
    · rcases mem_escChars h with h | h
      · exact hc h
      · exact hx h
    · exact hc (by simpa using h)

theorem rowOf_eq (s : Store) (n : Note) :
    rowOf s n = escape (deckNameOf s n)
      ++ comma :: (escape n.front ++ comma :: escape n.back) := by
  simp [rowOf, List.intercalate, List.intersperse]

theorem rowOf_no_sep (s : Store) (n : Note) {c : Char} (hc1 : c ≠ dq)
    (hc2 : c ≠ comma) (h1 : c ∉ deckNameOf s n) (h2 : c ∉ n.front)
    (h3 : c ∉ n.back) : c ∉ rowOf s n := by
  rw [rowOf_eq]
  intro h
  rcases List.mem_append.mp h with h | h
  · exact not_mem_escape hc1 h1 h
  · rcases List.mem_cons.mp h with h | h
    · exact hc2 h
    · rcases List.mem_append.mp h with h | h
      · exact not_mem_escape hc1 h2 h
      · rcases List.mem_cons.mp h with h | h
        · exact hc2 h
        · exact not_mem_escape hc1 h3 h

theorem rowOf_ne_nil (s : Store) (n : Note) : rowOf s n ≠ [] := by
  rw [rowOf_eq, escape]
  simp

/-- As long as no field contains a line break, the exported text splits
back into exactly the header and one row per note. -/
theorem csvLines_exportCSV (s : Store)
    (hsep : ∀ n ∈ s.notes,
      (nl ∉ deckNameOf s n ∧ cr ∉ deckNameOf s n)
      ∧ (nl ∉ n.front ∧ cr ∉ n.front) ∧ (nl ∉ n.back ∧ cr ∉ n.back)) :
    csvLines (exportCSV s) = csvHeader :: s.notes.map (rowOf s) := by
  unfold exportCSV
  refine csvLines_intercalate _ (by simp) ?_ ?_
  · intro p hp
    rcases List.mem_cons.mp hp with hp | hp
    · subst hp
      constructor <;> decide
    · obtain ⟨n, hn, hrow⟩ := List.mem_map.mp hp
      obtain ⟨hdn, hf, hb⟩ := hsep n hn
      subst hrow
      constructor
      · exact rowOf_no_sep s n (by decide) (by decide) hdn.1 hf.1 hb.1
      · exact rowOf_no_sep s n (by decide) (by decide) hdn.2 hf.2 hb.2
  · intro p hp
    rcases List.mem_cons.mp hp with hp | hp
    · subst hp; decide
    · obtain ⟨n, hn, hrow⟩ := List.mem_map.mp hp
      subst hrow
      exact rowOf_ne_nil s n

/-! ### Importing the rows -/

theorem jsOrStr_some_nil (s : List Char) : jsOrStr (some s) [] = s := by
  by_cases h : s = [] <;> simp [jsOrStr, h]

theorem jsOrStr_some_ne (s d : List Char) (h : s ≠ []) :
    jsOrStr (some s) d = s := by
  simp [jsOrStr, h]

theorem getOrCreate_decks_mono (u : Store) (name : List Char) (t : ℚ) :
    u.decks <+: (getOrCreateDeckId u name t).1.decks := by
  unfold getOrCreateDeckId
  cases u.decks.find? (fun d => d.name == name) with
  | none => exact List.prefix_append _ _
  | some d => exact List.prefix_refl _

theorem getOrCreate_found (u : Store) (name : List Char) (t : ℚ) :
    ∃ d ∈ (getOrCreateDeckId u name t).1.decks,
      d.id = (getOrCreateDeckId u name t).2 ∧ d.name = name := by
  unfold getOrCreateDeckId
  cases hf : u.decks.find? (fun d => d.name == name) with
  | none =>
      refine ⟨⟨u.nextDeckId, name, t⟩, ?_, rfl, rfl⟩
      simp [createDeck]
  | some d =>
      refine ⟨d, List.mem_of_find?_eq_some hf, rfl, ?_⟩
      have := List.find?_some hf
      simpa using this

theorem getOrCreate_same (u : Store) (name : List Char) (t : ℚ) :
    (getOrCreateDeckId u name t).1.notes = u.notes
      ∧ (getOrCreateDeckId u name t).1.cards = u.cards := by
  unfold getOrCreateDeckId
  cases u.decks.find? (fun d => d.name == name) with
  | none => exact ⟨rfl, rfl⟩
  | some d => exact ⟨rfl, rfl⟩

theorem importRow_decks_mono (u : Store) (line : List Char) (t : ℚ) :
    u.decks <+: (importRow u line t).decks := by
  unfold importRow
  exact getOrCreate_decks_mono u _ t

theorem importRows_decks_mono (t : ℚ) : ∀ (rows : List (List Char)) (u : Store),
    u.decks <+: (importRows u t rows).decks
  | [], u => List.prefix_refl _
  | line :: rest, u =>
      (importRow_decks_mono u line t).trans
        (importRows_decks_mono t rest (importRow u line t))

/-- On one exported row with clean fields, `importRow` is get-or-create
followed by `createNote`. -/
theorem importRow_row (u : Store) (dn f b : List Char) (t : ℚ)
    (hdn0 : dn ≠ []) (hdn : cleanField dn) (hf : cleanField f)
    (hb : cleanField b) :
    importRow u (escape dn ++ comma :: (escape f ++ comma :: escape b)) t
      = (createNote (getOrCreateDeckId u dn t).1 (getOrCreateDeckId u dn t).2
          f b t).1 := by
  unfold importRow
  rw [splitLine_row dn f b]
  simp only [List.map_cons, List.map_nil, parseCell_parsedA dn hdn,
    parseCell_parsedA f hf, parseCell_parsedA b hb, List.get?]
  rw [jsOrStr_some_ne dn _ hdn0, jsOrStr_some_nil, jsOrStr_some_nil]

/-- Main induction: importing the rows of the clean notes `ns` appends, for
each, one note with the original text whose deck (in the final store) bears
the original deck name, and one card with the new-card defaults. -/
theorem importRows_rowOf (s : Store) (t : ℚ) : ∀ (ns : List Note) (u : Store),
    (∀ n ∈ ns, rowClean s n) →
    ∃ newNotes newCards,
      (importRows u t (ns.map (rowOf s))).notes = u.notes ++ newNotes
      ∧ (importRows u t (ns.map (rowOf s))).cards = u.cards ++ newCards
      ∧ List.Forall₂ (fun orig newn =>
          newn.front = orig.front ∧ newn.back = orig.back
          ∧ ∃ d ∈ (importRows u t (ns.map (rowOf s))).decks,
              newn.deckId = some d.id ∧ d.name = deckNameOf s orig) ns newNotes
      ∧ ∀ c ∈ newCards, c.interval = 0 ∧ c.ease = 2.5 ∧ c.reps = 0
          ∧ c.lapses = 0 ∧ c.state = CState.new := by
  intro ns
  induction ns with
  | nil =>
      intro u _
      exact ⟨[], [], by simp [importRows], by simp [importRows], by simp, by simp⟩
  | cons n ns ih =>
      intro u h
      obtain ⟨hdn, hdn0, hf, hb⟩ := h n (by simp)
      have hns : ∀ m ∈ ns, rowClean s m := fun m hm => h m (by simp [hm])
      have hrow : importRow u (rowOf s n) t
          = (createNote (getOrCreateDeckId u (deckNameOf s n) t).1
              (getOrCreateDeckId u (deckNameOf s n) t).2 n.front n.back t).1 := by
        rw [rowOf_eq]
        exact importRow_row u _ _ _ t hdn0 hdn hf hb
      have hstep : importRows u t ((n :: ns).map (rowOf s))
          = importRows (importRow u (rowOf s n) t) t (ns.map (rowOf s)) := rfl
      obtain ⟨nn, nc, h1, h2, h3, h4⟩ := ih (importRow u (rowOf s n) t) hns
      set u1 := (getOrCreateDeckId u (deckNameOf s n) t).1 with hu1
      set did := (getOrCreateDeckId u (deckNameOf s n) t).2 with hdid
      have hnotes1 : (importRow u (rowOf s n) t).notes
          = u.notes ++ [⟨u1.nextNoteId, some did, n.front, n.back, t, t⟩] := by
        rw [hrow]
        simp only [createNote]
        rw [hu1, (getOrCreate_same u (deckNameOf s n) t).1]
      have hcards1 : (importRow u (rowOf s n) t).cards
          = u.cards ++ [⟨u1.nextCardId, some did, some u1.nextNoteId, t, 0, 2.5,
              0, 0, .new⟩] := by
        rw [hrow]
        simp only [createNote]
        rw [hu1, (getOrCreate_same u (deckNameOf s n) t).2]
      refine ⟨⟨u1.nextNoteId, some did, n.front, n.back, t, t⟩ :: nn,
        ⟨u1.nextCardId, some did, some u1.nextNoteId, t, 0, 2.5, 0, 0, .new⟩ :: nc,
        ?_, ?_, ?_, ?_⟩
      · rw [hstep, h1, hnotes1]; simp
      · rw [hstep, h2, hcards1]; simp
      · refine List.Forall₂.cons ⟨rfl, rfl, ?_⟩ ?_
        · obtain ⟨d, hd1, hd2, hd3⟩ := getOrCreate_found u (deckNameOf s n) t
          refine ⟨d, ?_, by rw [hd2], hd3⟩
          have hpre : u1.decks <+: (importRows u t ((n :: ns).map (rowOf s))).decks := by
            rw [hstep]
            refine List.IsPrefix.trans ?_ (importRows_decks_mono t _ _)
            rw [hrow]
            simp [createNote]
          exact hpre.subset hd1
        · rw [hstep]
          exact h3
      · intro c hc
        rcases List.mem_cons.mp hc with hc | hc
        · subst hc; exact ⟨rfl, rfl, rfl, rfl, rfl⟩
        · exact h4 c hc

/-- C9 (amended): for every source store whose deck names are nonempty and
whose `(deckName, front, back)` fields are clean (no line breaks, stable
under trimming, not quote-wrapped), importing `exportCSV`'s output into any
store succeeds and creates, per original note in order, one note carrying
the original front/back whose deck (reused or created by exact name) bears
the original deck name — while every created card starts from the new-card
scheduling defaults, so scheduling state is not preserved. -/
theorem c9_roundtrip (s u : Store) (t : ℚ)
    (hclean : ∀ n ∈ s.notes, rowClean s n) :
    ∃ u2, importCSV u (exportCSV s) t = Except.ok u2
      ∧ ∃ newNotes newCards,
          u2.notes = u.notes ++ newNotes ∧ u2.cards = u.cards ++ newCards
          ∧ List.Forall₂ (fun orig newn =>
              newn.front = orig.front ∧ newn.back = orig.back
              ∧ ∃ d ∈ u2.decks, newn.deckId = some d.id
                  ∧ d.name = deckNameOf s orig) s.notes newNotes
          ∧ ∀ c ∈ newCards, c.interval = 0 ∧ c.ease = 2.5 ∧ c.reps = 0
              ∧ c.lapses = 0 ∧ c.state = CState.new := by
  have hl : csvLines (exportCSV s) = csvHeader :: s.notes.map (rowOf s) :=
    csvLines_exportCSV s (fun n hn =>
      ⟨⟨(hclean n hn).1.1, (hclean n hn).1.2.1⟩,
        ⟨(hclean n hn).2.2.1.1, (hclean n hn).2.2.1.2.1⟩,
        ⟨(hclean n hn).2.2.2.1, (hclean n hn).2.2.2.2.1⟩⟩)
  have hok : headerOk csvHeader = true := by decide
  obtain ⟨nn, nc, h1, h2, h3, h4⟩ := importRows_rowOf s t s.notes u hclean
  refine ⟨importRows u t (s.notes.map (rowOf s)), ?_, nn, nc, h1, h2, h3, h4⟩
  unfold importCSV
  rw [hl]
  simp [hok]

theorem c9_witness :
    ∃ u2, importCSV emptyStore (exportCSV c9store) 0 = Except.ok u2
      ∧ ∃ newNotes newCards,
          u2.notes = emptyStore.notes ++ newNotes
          ∧ u2.cards = emptyStore.cards ++ newCards
          ∧ List.Forall₂ (fun orig newn =>
              newn.front = orig.front ∧ newn.back = orig.back
              ∧ ∃ d ∈ u2.decks, newn.deckId = some d.id
                  ∧ d.name = deckNameOf c9store orig) c9store.notes newNotes
          ∧ ∀ c ∈ newCards, c.interval = 0 ∧ c.ease = 2.5 ∧ c.reps = 0
              ∧ c.lapses = 0 ∧ c.state = CState.new :=
  c9_roundtrip c9store emptyStore 0 (by decide)

/-- C9 counterexample: exporting `c9bad` and re-importing yields a note
whose front is `"a"`, not the original `" a"` — `parseCell` trims every
cell — so the round trip does not preserve the `(deckName, front, back)`
triple for every store. -/
theorem c9_counterexample :
    ∃ u2, importCSV emptyStore (exportCSV c9bad) 0 = Except.ok u2
      ∧ u2.notes.map Note.front = [['a']]
      ∧ c9bad.notes.map Note.front = [[' ', 'a']]
      ∧ ([' ', 'a'] : List Char) ≠ ['a'] := by
  have hl : csvLines (exportCSV c9bad) = csvHeader :: [rowOf c9bad note9] :=
    csvLines_exportCSV c9bad (by decide)
  have hok : headerOk csvHeader = true := by decide
  refine ⟨importRows emptyStore 0 [rowOf c9bad note9], ?_, ?_, by decide, by decide⟩
  · unfold importCSV
    rw [hl]
    simp [hok]
  · have hstep : importRows emptyStore 0 [rowOf c9bad note9]
        = importRow emptyStore (rowOf c9bad note9) 0 := rfl
    rw [hstep, rowOf_eq]
    unfold importRow
    rw [show deckNameOf c9bad note9 = "D".toList from rfl,
      show note9.front = " a".toList from rfl,
      show note9.back = "b".toList from rfl,
      splitLine_row]
    simp only [List.map_cons, List.map_nil,
      show parseCell (parsedA ("D".toList)) = "D".toList from by decide,
      show parseCell (parsedA (" a".toList)) = ['a'] from by decide,
      show parseCell (parsedA ("b".toList)) = "b".toList from by decide,
      List.get?]
    rw [jsOrStr_some_ne _ _ (by decide), jsOrStr_some_nil, jsOrStr_some_nil]
    rfl

theorem Integ.ref {s : Store} (h : Integ s) : RefIntegrity s :=
  ⟨h.1, fun c hc => (h.2 c hc).imp (fun n hn => ⟨hn.1, hn.2.1⟩)⟩

/-! ### Preservation of `Integ` by the CRUD operations -/

theorem integ_empty : Integ emptyStore := by
  constructor <;> intro x hx <;> simp [emptyStore] at hx

theorem integ_createDeck {s : Store} (h : Integ s) (name : List Char) (t : ℚ) :
    Integ (createDeck s name t).1 := by
  refine ⟨fun n hn => ?_, fun c hc => ?_⟩
  · obtain ⟨d, hd, hid⟩ := h.1 n hn
    exact ⟨d, by simp [createDeck, hd], hid⟩
  · exact h.2 c hc

theorem integ_renameDeck {s : Store} (h : Integ s) (id : ℕ) (name : List Char) :
    Integ (renameDeck s id name) := by
  refine ⟨fun n hn => ?_, fun c hc => h.2 c hc⟩
  obtain ⟨d, hd, hid⟩ := h.1 n hn
  refine ⟨if d.id = id then { d with name := name } else d, ?_, ?_⟩
  · simp only [renameDeck]
    exact List.mem_map_of_mem _ hd
  · split_ifs <;> simpa using hid

theorem integ_deleteDeck {s : Store} (h : Integ s) (id : ℕ) :
    Integ (deleteDeck s id) := by
  refine ⟨fun n hn => ?_, fun c hc => ?_⟩
  · rw [deleteDeck] at hn
    simp only [List.mem_filter, Bool.not_eq_eq_eq_not, Bool.not_true,
      beq_eq_false_iff_ne] at hn
    obtain ⟨hn, hne⟩ := hn
    obtain ⟨d, hd, hid⟩ := h.1 n hn
    refine ⟨d, ?_, hid⟩
    rw [deleteDeck]
    simp only [List.mem_filter, Bool.not_eq_eq_eq_not, Bool.not_true,
      beq_eq_false_iff_ne]
    refine ⟨hd, fun hdid => hne ?_⟩
    rw [hid, hdid]
  · rw [deleteDeck] at hc
    simp only [List.mem_filter, Bool.not_eq_eq_eq_not, Bool.not_true,
      beq_eq_false_iff_ne] at hc
    obtain ⟨hc, hne⟩ := hc
    obtain ⟨n, hn, hnid, hdid⟩ := h.2 c hc
    refine ⟨n, ?_, hnid, hdid⟩
    rw [deleteDeck]
    simp only [List.mem_filter, Bool.not_eq_eq_eq_not, Bool.not_true,
      beq_eq_false_iff_ne]
    exact ⟨hn, fun hh => hne (by rw [hdid, hh])⟩

theorem integ_createNote {s : Store} (h : Integ s) {did : ℕ}
    (hd : deckExists s did) (f b : List Char) (t : ℚ) :
    Integ (createNote s did f b t).1 := by
  obtain ⟨d0, hd0, hd0id⟩ := hd
  refine ⟨fun n hn => ?_, fun c hc => ?_⟩
  · rw [createNote] at hn
    simp only [List.mem_append, List.mem_singleton] at hn
    rcases hn with hn | hn
    · obtain ⟨d, hd, hid⟩ := h.1 n hn
      exact ⟨d, by simp [createNote, hd], hid⟩
    · subst hn
      exact ⟨d0, by simp [createNote, hd0], by simp [hd0id]⟩
  · rw [createNote] at hc
    simp only [List.mem_append, List.mem_singleton] at hc
    rcases hc with hc | hc
    · obtain ⟨n, hn, hnid, hdid⟩ := h.2 c hc
      exact ⟨n, by simp [createNote, hn], hnid, hdid⟩
    · subst hc
      exact ⟨⟨s.nextNoteId, some did, f, b, t, t⟩, by simp [createNote],
        rfl, rfl⟩

theorem integ_updateNote {s : Store} (h : Integ s) (nid : ℕ)
    (f b : List Char) (t : ℚ) : Integ (updateNote s nid f b t) := by
  refine ⟨fun n hn => ?_, fun c hc => ?_⟩
  · rw [updateNote] at hn
    obtain ⟨m, hm, hmap⟩ := List.mem_map.mp hn
    obtain ⟨d, hd, hid⟩ := h.1 m hm
    refine ⟨d, hd, ?_⟩
    subst hmap
    split_ifs <;> simpa using hid
  · obtain ⟨n, hn, hnid, hdid⟩ := h.2 c hc
    refine ⟨if n.id = nid then { n with front := f, back := b, updatedAt := t }
      else n, ?_, ?_, ?_⟩
    · rw [updateNote]
      exact List.mem_map_of_mem _ hn
    · split_ifs <;> simpa using hnid
    · split_ifs <;> simpa using hdid

theorem integ_deleteNote {s : Store} (h : Integ s) (nid : ℕ) :
    Integ (deleteNote s nid) := by
  refine ⟨fun n hn => ?_, fun c hc => ?_⟩
  · rw [deleteNote] at hn
    simp only [List.mem_filter] at hn
    exact h.1 n hn.1
  · rw [deleteNote] at hc
    simp only [List.mem_filter, Bool.not_eq_eq_eq_not, Bool.not_true,
      beq_eq_false_iff_ne] at hc
    obtain ⟨hc, hne⟩ := hc
    obtain ⟨n, hn, hnid, hdid⟩ := h.2 c hc
    refine ⟨n, ?_, hnid, hdid⟩
    rw [deleteNote]
    simp only [List.mem_filter, Bool.not_eq_eq_eq_not, Bool.not_true,
      beq_eq_false_iff_ne]
    refine ⟨hn, fun hh => hne ?_⟩
    rw [hnid, hh]

theorem integ_updateCard {s : Store} (h : Integ s) (cid : ℕ) (p : CardPatch) :
    Integ (updateCard s cid p) := by
  refine ⟨h.1, fun c hc => ?_⟩
  rw [updateCard] at hc
  obtain ⟨c0, hc0, hmap⟩ := List.mem_map.mp hc
  obtain ⟨n, hn, hnid, hdid⟩ := h.2 c0 hc0
  refine ⟨n, hn, ?_, ?_⟩ <;> subst hmap <;> split_ifs <;> simp [hnid, hdid]

theorem integ_getOrCreate {s : Store} (h : Integ s) (name : List Char)
    (t : ℚ) : Integ (getOrCreateDeckId s name t).1 := by
  unfold getOrCreateDeckId
  cases s.decks.find? (fun d => d.name == name) with
  | none => exact integ_createDeck h name t
  | some d => exact h

theorem getOrCreate_exists (s : Store) (name : List Char) (t : ℚ) :
    deckExists (getOrCreateDeckId s name t).1 (getOrCreateDeckId s name t).2 := by
  obtain ⟨d, hd, hid, -⟩ := getOrCreate_found s name t
  exact ⟨d, hd, hid⟩

theorem integ_importRow {s : Store} (h : Integ s) (line : List Char) (t : ℚ) :
    Integ (importRow s line t) := by
  unfold importRow
  exact integ_createNote (integ_getOrCreate h _ t) (getOrCreate_exists s _ t) _ _ t

theorem integ_importRows (t : ℚ) : ∀ (rows : List (List Char)) {s : Store},
    Integ s → Integ (importRows s t rows)
  | [], _, h => h
  | line :: rest, s, h =>
      integ_importRows t rest (integ_importRow h line t)

/-! ### Preservation of `Integ` by `importJSON` on closed snapshots -/

theorem lookupId_cons (p : ℕ × ℕ) (m : List (ℕ × ℕ)) (k : ℕ) :
    lookupId (p :: m) k = if p.1 = k then some p.2 else lookupId m k := rfl

theorem impDecks_spec (t : ℚ) : ∀ (ds : List SnapDeck) (u : Store)
    (m : List (ℕ × ℕ)), dmOK u m →
    dmOK (impDecks t ds u m).1 (impDecks t ds u m).2
    ∧ (∀ k, (lookupId m k).isSome → (lookupId (impDecks t ds u m).2 k).isSome)
    ∧ (∀ d ∈ ds, (lookupId (impDecks t ds u m).2 d.id).isSome)
    ∧ u.decks <+: (impDecks t ds u m).1.decks
    ∧ (impDecks t ds u m).1.notes = u.notes
    ∧ (impDecks t ds u m).1.cards = u.cards
  | [], u, m, h => ⟨h, fun _ hk => hk, by simp, List.prefix_refl _, rfl, rfl⟩
  | d :: ds, u, m, h => by
      set u2 : Store := { u with
        decks := u.decks ++ [⟨u.nextDeckId, d.name, jsDate d.createdAt t⟩],
        nextDeckId := u.nextDeckId + 1 } with hu2
      have h2 : dmOK u2 ((d.id, u.nextDeckId) :: m) := by
        intro k v hl
        rw [lookupId_cons] at hl
        split_ifs at hl with hk
        · refine ⟨⟨u.nextDeckId, d.name, jsDate d.createdAt t⟩, by simp [hu2], ?_⟩
          simpa using Option.some_injective _ hl
        · obtain ⟨d0, hd0, hid⟩ := h k v hl
          exact ⟨d0, by simp [hu2, hd0], hid⟩
      obtain ⟨ih1, ih2, ih3, ih4, ih5, ih6⟩ :=
        impDecks_spec t ds u2 ((d.id, u.nextDeckId) :: m) h2
      have hkeep : ∀ k, (lookupId m k).isSome →
          (lookupId ((d.id, u.nextDeckId) :: m) k).isSome := by
        intro k hk
        rw [lookupId_cons]
        split_ifs <;> simp [hk]
      refine ⟨ih1, ?_, ?_, ?_, ?_, ?_⟩
      · intro k hk
        exact ih2 k (hkeep k hk)
      · intro d1 hd1
        rcases List.mem_cons.mp hd1 with hd1 | hd1
        · subst hd1
          refine ih2 d1.id ?_
          rw [lookupId_cons]
          simp
        · exact ih3 d1 hd1
      · refine List.IsPrefix.trans ?_ ih4
        simp [hu2]
      · exact ih5
      · exact ih6

theorem impNotes_spec (t : ℚ) (dm : List (ℕ × ℕ)) (NS : List SnapNote) :
    ∀ (ns : List SnapNote) (u : Store) (m : List (ℕ × ℕ)),
    (∀ n ∈ ns, n ∈ NS) → nmOK NS dm u m →
    nmOK NS dm (impNotes t dm ns u m).1 (impNotes t dm ns u m).2
    ∧ (∀ k, (lookupId m k).isSome → (lookupId (impNotes t dm ns u m).2 k).isSome)
    ∧ (∀ n ∈ ns, (lookupId (impNotes t dm ns u m).2 n.id).isSome)
    ∧ u.notes <+: (impNotes t dm ns u m).1.notes
    ∧ (impNotes t dm ns u m).1.decks = u.decks
    ∧ (impNotes t dm ns u m).1.cards = u.cards
    ∧ ∀ note ∈ (impNotes t dm ns u m).1.notes, note ∈ u.notes
        ∨ ∃ n ∈ ns, note.deckId = n.deckId.bind (lookupId dm)
  | [], u, m, _, h =>
      ⟨h, fun _ hk => hk, by simp, List.prefix_refl _, rfl, rfl,
        fun note hn => Or.inl hn⟩
  | n :: ns, u, m, hNS, h => by
      set newnote : Note := ⟨u.nextNoteId, n.deckId.bind (lookupId dm),
        n.front, n.back, jsDate n.createdAt t, jsDate n.updatedAt t⟩ with hnew
      set u2 : Store := { u with
        notes := u.notes ++ [newnote],
        nextNoteId := u.nextNoteId + 1 } with hu2
      have h2 : nmOK NS dm u2 ((n.id, u.nextNoteId) :: m) := by
        intro k v hl
        rw [lookupId_cons] at hl
        split_ifs at hl with hk
        · refine ⟨newnote, by simp [hu2], ?_, n, hNS n (by simp), hk, by simp [hnew]⟩
          simpa [hnew] using Option.some_injective _ hl
        · obtain ⟨note, hnote, hid, rest⟩ := h k v hl
          exact ⟨note, by simp [hu2, hnote], hid, rest⟩
      obtain ⟨ih1, ih2, ih3, ih4, ih5, ih6, ih7⟩ :=
        impNotes_spec t dm NS ns u2 ((n.id, u.nextNoteId) :: m)
          (fun n1 hn1 => hNS n1 (by simp [hn1])) h2
      have hkeep : ∀ k, (lookupId m k).isSome →
          (lookupId ((n.id, u.nextNoteId) :: m) k).isSome := by
        intro k hk
        rw [lookupId_cons]
        split_ifs <;> simp [hk]
      refine ⟨ih1, ?_, ?_, ?_, ?_, ?_, ?_⟩
      · intro k hk
        exact ih2 k (hkeep k hk)
      · intro n1 hn1
        rcases List.mem_cons.mp hn1 with hn1 | hn1
        · subst hn1
          refine ih2 n1.id ?_
          rw [lookupId_cons]
          simp
        · exact ih3 n1 hn1
      · refine List.IsPrefix.trans ?_ ih4
        simp [hu2]
      · exact ih5
      · exact ih6
      · intro note hnote
        rcases ih7 note hnote with hn1 | ⟨n1, hn1, hdk⟩
        · rw [hu2] at hn1
          simp only [List.mem_append, List.mem_singleton] at hn1
          rcases hn1 with hn1 | hn1
          · exact Or.inl hn1
          · exact Or.inr ⟨n, by simp, by simp [hn1, hnew]⟩
        · exact Or.inr ⟨n1, by simp [hn1], hdk⟩

theorem impCards_integ (t : ℚ) (dm nm : List (ℕ × ℕ)) :
    ∀ (cs : List SnapCard) (u : Store), Integ u →
    (∀ c ∈ cs, ∃ note ∈ u.notes, c.noteId.bind (lookupId nm) = some note.id
      ∧ c.deckId.bind (lookupId dm) = note.deckId) →
    Integ (impCards t dm nm cs u)
  | [], u, h, _ => h
  | c :: cs, u, h, hres => by
      set newcard : Card := ⟨u.nextCardId, c.deckId.bind (lookupId dm),
        c.noteId.bind (lookupId nm), jsDate c.due t, c.interval.getD 0,
        c.ease.getD 2.5, c.reps.getD 0, c.lapses.getD 0,
        c.state.getD CState.new⟩ with hnew
      set u2 : Store := { u with
        cards := u.cards ++ [newcard],
        nextCardId := u.nextCardId + 1 } with hu2
      have h2 : Integ u2 := by
        refine ⟨fun n hn => h.1 n hn, fun c1 hc1 => ?_⟩
        rw [hu2] at hc1
        simp only [List.mem_append, List.mem_singleton] at hc1
        rcases hc1 with hc1 | hc1
        · exact h.2 c1 hc1
        · subst hc1
          obtain ⟨note, hnote, hnid, hdid⟩ := hres c (by simp)
          exact ⟨note, hnote, by simp [hnew, hnid], by simp [hnew, hdid]⟩
      exact impCards_integ t dm nm cs u2 h2
        (fun c1 hc1 => (hres c1 (by simp [hc1])).imp
          (fun note hh => ⟨hh.1, hh.2⟩))

theorem integ_importJSON {s s2 : Store} (h : Integ s) {snap : Snapshot}
    (hc : SnapClosed snap) {t : ℚ} (hok : importJSON s snap t = Except.ok s2) :
    Integ s2 := by
  obtain ⟨ds, ns, cs, hds, hns, hcs, hnref, hcref, hnodup⟩ := hc
  unfold importJSON at hok
  rw [hds, hns, hcs] at hok
  simp only [Except.ok.injEq] at hok
  obtain ⟨d1, d2, d3, d4, d5, d6⟩ :=
    impDecks_spec t ds s [] (by intro k v hl; simp [lookupId] at hl)
  set p1 := impDecks t ds s [] with hp1
  have hu1 : Integ p1.1 := by
    refine ⟨fun n hn => ?_, fun c hcm => ?_⟩
    · rw [d5] at hn
      obtain ⟨d, hd, hid⟩ := h.1 n hn
      exact ⟨d, d4.subset hd, hid⟩
    · rw [d6] at hcm
      obtain ⟨n, hn, hrest⟩ := h.2 c hcm
      exact ⟨n, by rw [d5]; exact hn, hrest⟩
  have hnres : ∀ n ∈ ns, ∃ v, n.deckId.bind (lookupId p1.2) = some v
      ∧ ∃ d ∈ p1.1.decks, d.id = v := by
    intro n hn
    obtain ⟨d0, hd0, hdk⟩ := hnref n hn
    obtain ⟨v, hv⟩ := Option.isSome_iff_exists.mp (d3 d0 hd0)
    exact ⟨v, by rw [hdk]; simpa using hv, d1 d0.id v hv⟩
  obtain ⟨n1, n2, n3, n4, n5, n6, n7⟩ :=
    impNotes_spec t p1.2 ns ns p1.1 [] (fun _ hh => hh)
      (by intro k v hl; simp [lookupId] at hl)
  set p2 := impNotes t p1.2 ns p1.1 [] with hp2
  have hu2 : Integ p2.1 := by
    refine ⟨fun note hnote => ?_, fun c hcm => ?_⟩
    · rcases n7 note hnote with hh | ⟨n0, hn0, hdk⟩
      · obtain ⟨d, hd, hid⟩ := hu1.1 note hh
        exact ⟨d, by rw [n5]; exact hd, hid⟩
      · obtain ⟨v, hv, d, hd, hid⟩ := hnres n0 hn0
        exact ⟨d, by rw [n5]; exact hd, by rw [hdk, hv, hid]⟩
    · rw [n6] at hcm
      obtain ⟨note, hnote, hrest⟩ := hu1.2 c hcm
      exact ⟨note, n4.subset hnote, hrest⟩
  have hcres2 : ∀ c ∈ cs, ∃ note ∈ p2.1.notes,
      c.noteId.bind (lookupId p2.2) = some note.id
      ∧ c.deckId.bind (lookupId p1.2) = note.deckId := by
    intro c hcm
    obtain ⟨n0, hn0, hcnid, hcdid⟩ := hcref c hcm
    obtain ⟨v, hv⟩ := Option.isSome_iff_exists.mp (n3 n0 hn0)
    obtain ⟨note, hnote, hid, n0x, hn0x, hidx, hdk⟩ := n1 n0.id v hv
    have heq : n0x = n0 := List.inj_on_of_nodup_map hnodup hn0x hn0 hidx
    subst heq
    refine ⟨note, hnote, ?_, ?_⟩
    · rw [hcnid]
      simpa [hv] using congrArg some hid.symm
    · rw [hcdid]
      exact hdk.symm
  rw [← hok]
  exact impCards_integ t p1.2 p2.2 cs p2.1 hu2 hcres2

/-- The invariant holds in every guarded-reachable state. -/
theorem reach_integ : ∀ {s : Store}, Reach s → Integ s := by
  intro s h
  induction h with
  | empty => exact integ_empty
  | createDeck s name t _ ih => exact integ_createDeck ih name t
  | renameDeck s id name _ ih => exact integ_renameDeck ih id name
  | deleteDeck s id _ ih => exact integ_deleteDeck ih id
  | createNote s did f b t _ hd ih => exact integ_createNote ih hd f b t
  | updateNote s nid f b t _ ih => exact integ_updateNote ih nid f b t
  | deleteNote s nid _ ih => exact integ_deleteNote ih nid
  | updateCard s cid p _ ih => exact integ_updateCard ih cid p
  | importCSV s s2 text t _ hok ih =>
      unfold importCSV at hok
      cases hcl : csvLines text with
      | nil => rw [hcl] at hok; cases hok
      | cons hd rows =>
          rw [hcl] at hok
          have hok2 : (if headerOk hd = true then Except.ok (importRows s t rows)
              else Except.error StoreError.format) = Except.ok s2 := hok
          by_cases hh : headerOk hd = true
          · rw [if_pos hh] at hok2
            simp only [Except.ok.injEq] at hok2
            rw [← hok2]
            exact integ_importRows t rows ih
          · rw [if_neg hh] at hok2
            cases hok2
  | importJSON s s2 snap t _ hc hok ih => exact integ_importJSON ih hc hok

/-- C4 (amended): `deleteDeck id` removes exactly the notes and cards with
`deckId = id` (none remain, all others remain, and the counts add up);
`deleteNote` leaves no card with that `noteId`; and referential integrity
holds in every store state reachable through the Store operations when
`createNote` is invoked only on an existing deck and `importJSON` only on
closed snapshots. -/
theorem c4_deletes_and_integrity :
    (∀ (s : Store) (id : ℕ),
      (∀ n ∈ (deleteDeck s id).notes, ¬ n.deckId = some id)
      ∧ (∀ n ∈ s.notes, ¬ n.deckId = some id → n ∈ (deleteDeck s id).notes)
      ∧ s.notes.length = (deleteDeck s id).notes.length
          + (s.notes.filter (fun n => n.deckId == some id)).length
      ∧ (∀ c ∈ (deleteDeck s id).cards, ¬ c.deckId = some id)
      ∧ (∀ c ∈ s.cards, ¬ c.deckId = some id → c ∈ (deleteDeck s id).cards)
      ∧ s.cards.length = (deleteDeck s id).cards.length
          + (s.cards.filter (fun c => c.deckId == some id)).length)
    ∧ (∀ (s : Store) (nid : ℕ),
        ∀ c ∈ (deleteNote s nid).cards, ¬ c.noteId = some nid)
    ∧ ∀ s : Store, Reach s → RefIntegrity s := by
  refine ⟨fun s id => ⟨?_, ?_, ?_, ?_, ?_, ?_⟩, fun s nid c hc => ?_, ?_⟩
  · intro n hn
    rw [deleteDeck] at hn
    simp only [List.mem_filter, Bool.not_eq_eq_eq_not, Bool.not_true,
      beq_eq_false_iff_ne] at hn
    exact hn.2
  · intro n hn hne
    rw [deleteDeck]
    simp only [List.mem_filter, Bool.not_eq_eq_eq_not, Bool.not_true,
      beq_eq_false_iff_ne]
    exact ⟨hn, hne⟩
  · have h := List.length_eq_length_filter_add (l := s.notes)
      (fun n => n.deckId == some id)
    simpa [deleteDeck] using h.trans (Nat.add_comm _ _)
  · intro c hc
    rw [deleteDeck] at hc
    simp only [List.mem_filter, Bool.not_eq_eq_eq_not, Bool.not_true,
      beq_eq_false_iff_ne] at hc
    exact hc.2
  · intro c hc hne
    rw [deleteDeck]
    simp only [List.mem_filter, Bool.not_eq_eq_eq_not, Bool.not_true,
      beq_eq_false_iff_ne]
    exact ⟨hc, hne⟩
  · have h := List.length_eq_length_filter_add (l := s.cards)
      (fun c => c.deckId == some id)
    simpa [deleteDeck] using h.trans (Nat.add_comm _ _)
  · rw [deleteNote] at hc
    simp only [List.mem_filter, Bool.not_eq_eq_eq_not, Bool.not_true,
      beq_eq_false_iff_ne] at hc
    exact hc.2
  · exact fun s hr => (reach_integ hr).ref

theorem c4_witness :
    RefIntegrity (createNote (createDeck emptyStore (['d'] : List Char) 0).1
      1 [] [] 0).1 :=
  c4_deletes_and_integrity.2.2 _
    (Reach.createNote _ 1 [] [] 0
      (Reach.createDeck emptyStore ['d'] 0 Reach.empty) (by decide))

/-- C4 counterexample: the empty store satisfies the invariant, but a
single Store operation — `createNote` with the nonexistent `deckId = 1` —
reaches a state whose note has a dangling `deckId`, refuting the claim
that every reachable state preserves referential integrity. -/
theorem c4_counterexample :
    RefIntegrity emptyStore
      ∧ ∃ n ∈ (createNote emptyStore 1 [] [] 0).1.notes,
          ¬ ∃ d ∈ (createNote emptyStore 1 [] [] 0).1.decks,
              n.deckId = some d.id := by
  constructor
  · exact ⟨fun n hn => by simp [emptyStore] at hn,
      fun c hc => by simp [emptyStore] at hc⟩
  · refine ⟨⟨1, some 1, [], [], 0, 0⟩, by simp [createNote, emptyStore], ?_⟩
    simp [createNote, emptyStore]

end Flashcards
